import Mathlib

/-!
Verification of the stock-analysis repository's two calculation engines.

The development is a shallow embedding of
`backend/analysis/fundamental_analysis.py` (fundamental ratio engine) and
`backend/analysis/technical_indicators.py` (technical indicator engine).

Modelling conventions:
* Python floats are idealised as `ℚ` (exact arithmetic); a pandas/NumPy
  `NaN` entry is modelled as `none : Option ℚ`.  A pandas `Series` of
  floats-with-NaN is `List (Option ℚ)`; an input price column (which is
  NaN-free) is `List ℚ`.
* `Series.rolling(window=p).f()` with the default `min_periods = p` yields
  NaN at a position unless the trailing window of length `p` exists and is
  NaN-free; this is the `rolling` combinator below.
* IEEE division edge cases are translated pointwise where the source hits
  them: `x / 0` is `+inf` for `x > 0` (so `100 - 100/(1+inf) = 100`), and
  `0 / 0` is NaN (`none`).  Branches of the pointwise operations record the
  corresponding case analysis.  A pointwise result that would be `±inf` in
  floats is modelled as `none`; the only reachable such cases are the 0/0
  ones, since gains, losses and money flows are non-negative by
  construction.
* Python `round(x, 2)` is idealised as exact decimal round-half-to-even of
  the rational value.
-/

namespace StockApp

/-! ## Fundamental ratio engine: `fundamental_analysis.py` -/

/-- `FundamentalAnalysis.pe_ratio`: `price / eps`, `None` when `eps == 0`. -/
def pe_ratio (price eps : ℚ) : Option ℚ :=
  if eps = 0 then none else some (price / eps)

/-- `FundamentalAnalysis.pb_ratio`: `price / book_value_per_share`. -/
def pb_ratio (price book_value_per_share : ℚ) : Option ℚ :=
  if book_value_per_share = 0 then none else some (price / book_value_per_share)

/-- `FundamentalAnalysis.peg_ratio`: `pe_ratio / earnings_growth_rate`. -/
def peg_ratio (pe earnings_growth_rate : ℚ) : Option ℚ :=
  if earnings_growth_rate = 0 then none else some (pe / earnings_growth_rate)

/-- `FundamentalAnalysis.roe`: `(net_income / shareholders_equity) * 100`. -/
def roe (net_income shareholders_equity : ℚ) : Option ℚ :=
  if shareholders_equity = 0 then none else some (net_income / shareholders_equity * 100)

/-- `FundamentalAnalysis.roa`: `(net_income / total_assets) * 100`. -/
def roa (net_income total_assets : ℚ) : Option ℚ :=
  if total_assets = 0 then none else some (net_income / total_assets * 100)

/-- `FundamentalAnalysis.debt_to_equity`: `total_debt / shareholders_equity`. -/
def debt_to_equity (total_debt shareholders_equity : ℚ) : Option ℚ :=
  if shareholders_equity = 0 then none else some (total_debt / shareholders_equity)

/-- `FundamentalAnalysis.current_ratio`: `current_assets / current_liabilities`. -/
def current_ratio (current_assets current_liabilities : ℚ) : Option ℚ :=
  if current_liabilities = 0 then none else some (current_assets / current_liabilities)

/-- `FundamentalAnalysis.dividend_yield`: `(annual_dividend / price) * 100`. -/
def dividend_yield (annual_dividend price : ℚ) : Option ℚ :=
  if price = 0 then none else some (annual_dividend / price * 100)

/-- `FundamentalAnalysis.eps_growth`:
`((current_eps - previous_eps) / abs(previous_eps)) * 100`. -/
def eps_growth (current_eps previous_eps : ℚ) : Option ℚ :=
  if previous_eps = 0 then none else some ((current_eps - previous_eps) / |previous_eps| * 100)

/-- Python's round-to-nearest-integer with ties to even (banker's rounding),
idealised over `ℚ`: the floor, the floor plus one, or — at an exact half —
whichever of the two is even. -/
def roundHalfEven (x : ℚ) : ℤ :=
  if x - ⌊x⌋ < 1 / 2 then ⌊x⌋
  else if 1 / 2 < x - ⌊x⌋ then ⌊x⌋ + 1
  else if ⌊x⌋ % 2 = 0 then ⌊x⌋ else ⌊x⌋ + 1

/-- Python `round(x, 2)`. -/
def round2 (x : ℚ) : ℚ := (roundHalfEven (100 * x) : ℚ) / 100

/-- The snapshot fields extracted by `analyze_company`, with the
`financial_data.get(key, 0)` defaulting already applied: each field holds the
value the Python code reads (0 when the key is absent). -/
structure FinancialData where
  price : ℚ
  eps : ℚ
  book_value_per_share : ℚ
  net_income : ℚ
  total_assets : ℚ
  shareholders_equity : ℚ
  total_debt : ℚ
  current_assets : ℚ
  current_liabilities : ℚ
  annual_dividend : ℚ
  earnings_growth_rate : ℚ

/-- The dictionary literal built by `analyze_company`: keys `ratios` (a
`name → float` mapping, modelled as an association list in insertion order),
`scores` (never written) and `signals`. -/
structure AnalysisResult where
  ratios : List (String × ℚ)
  scores : List (String × ℚ)
  signals : List String

/-- One `if value: result['ratios'][name] = round(value, 2)` block of
`analyze_company`.  Python truthiness: `None` and `0.0` are falsy, any other
float truthy; the stored value is the raw value rounded to 2 places. -/
def ratioEntry (name : String) (v : Option ℚ) : List (String × ℚ) :=
  match v with
  | none => []
  | some x => if x = 0 then [] else [(name, round2 x)]

/-- The `peg_ratio` block of `analyze_company`: guarded by
`if pe and earnings_growth:` (both truthy) before computing and testing
`peg` itself. -/
def pegEntryOf (pe : Option ℚ) (earnings_growth : ℚ) : List (String × ℚ) :=
  match pe with
  | none => []
  | some v =>
    if v ≠ 0 ∧ earnings_growth ≠ 0 then
      ratioEntry "peg_ratio" (peg_ratio v earnings_growth)
    else []

/-- Python truthiness test `o and o < t` on an `Optional[float]`. -/
def tLT (o : Option ℚ) (t : ℚ) : Bool :=
  match o with
  | none => false
  | some v => decide (v ≠ 0 ∧ v < t)

/-- Python truthiness test `o and o > t` on an `Optional[float]`. -/
def tGT (o : Option ℚ) (t : ℚ) : Bool :=
  match o with
  | none => false
  | some v => decide (v ≠ 0 ∧ t < v)

/-- The `result['ratios']` mapping built by `analyze_company`, in insertion
order. -/
def ratiosOf (fd : FinancialData) : List (String × ℚ) :=
  ratioEntry "pe_ratio" (pe_ratio fd.price fd.eps) ++
    (ratioEntry "pb_ratio" (pb_ratio fd.price fd.book_value_per_share) ++
      (pegEntryOf (pe_ratio fd.price fd.eps) fd.earnings_growth_rate ++
        (ratioEntry "roe" (roe fd.net_income fd.shareholders_equity) ++
          (ratioEntry "roa" (roa fd.net_income fd.total_assets) ++
            (ratioEntry "debt_to_equity" (debt_to_equity fd.total_debt fd.shareholders_equity) ++
              (ratioEntry "current_ratio"
                  (current_ratio fd.current_assets fd.current_liabilities) ++
                ratioEntry "dividend_yield" (dividend_yield fd.annual_dividend fd.price)))))))

/-- The `result['signals']` list built by `analyze_company`, in append order;
each `if c1: append s1 elif c2: append s2` block keeps its `elif` structure. -/
def signalsOf (fd : FinancialData) : List String :=
  (if tLT (pe_ratio fd.price fd.eps) 15 then ["Low P/E ratio (potentially undervalued)"]
   else if tGT (pe_ratio fd.price fd.eps) 30 then ["High P/E ratio (potentially overvalued)"]
   else []) ++
    ((if tGT (roe fd.net_income fd.shareholders_equity) 15 then ["Good ROE (>15%)"] else []) ++
      ((if tLT (debt_to_equity fd.total_debt fd.shareholders_equity) (1 / 2) then
          ["Low debt-to-equity (financially stable)"]
        else if tGT (debt_to_equity fd.total_debt fd.shareholders_equity) 2 then
          ["High debt-to-equity (high leverage)"]
        else []) ++
        (if tGT (current_ratio fd.current_assets fd.current_liabilities) (3 / 2) then
          ["Good liquidity (CR > 1.5)"]
        else if tLT (current_ratio fd.current_assets fd.current_liabilities) 1 then
          ["Low liquidity (CR < 1)"]
        else [])))

/-- `FundamentalAnalysis.analyze_company`. -/
def analyze_company (fd : FinancialData) : AnalysisResult :=
  { ratios := ratiosOf fd, scores := [], signals := signalsOf fd }

/-! ## Technical indicator engine: `technical_indicators.py` -/

/-- Extract a NaN-free list from a list of float entries; `none` as soon as
any entry is NaN.  Used to model aggregations whose pandas result is NaN
whenever the window contains a NaN. -/
def seqOpt : List (Option ℚ) → Option (List ℚ)
  | [] => some []
  | none :: _ => none
  | some x :: rest => (seqOpt rest).map (x :: ·)

/-- The trailing window of length `p` ending at position `i` (shorter when
fewer than `p` entries exist before position `i`). -/
def trailWin (p i : ℕ) (xs : List (Option ℚ)) : List (Option ℚ) :=
  (xs.take (i + 1)).drop (i + 1 - p)

/-- `Series.rolling(window=p).agg(f)` with the default `min_periods = p`:
NaN until `p` entries exist, NaN whenever the window contains a NaN,
otherwise `f` of the window. -/
def rolling (f : List ℚ → Option ℚ) (p : ℕ) (xs : List (Option ℚ)) : List (Option ℚ) :=
  (List.range xs.length).map fun i =>
    if p ≤ i + 1 then (seqOpt (trailWin p i xs)).bind f else none

/-- `rolling(window=p).mean()`. -/
def rollingMean (p : ℕ) (xs : List (Option ℚ)) : List (Option ℚ) :=
  rolling (fun w => some (w.sum / p)) p xs

/-- `rolling(window=p).sum()`. -/
def rollingSum (p : ℕ) (xs : List (Option ℚ)) : List (Option ℚ) :=
  rolling (fun w => some w.sum) p xs

/-- `rolling(window=p).min()`. -/
def rollingMin (p : ℕ) (xs : List (Option ℚ)) : List (Option ℚ) :=
  rolling (fun w => w.min?) p xs

/-- `rolling(window=p).max()`. -/
def rollingMax (p : ℕ) (xs : List (Option ℚ)) : List (Option ℚ) :=
  rolling (fun w => w.max?) p xs

/-- `rolling(window=p).std()` (pandas default `ddof = 1`, sample standard
deviation).  The square root is irrational on `ℚ`, so the model takes the
square-root function `sq` as a parameter; every property proved about
Bollinger bands holds for all `sq`.  For `p = 1` the `ddof = 1` divisor is
zero and pandas yields NaN. -/
def rollingStd (sq : ℚ → ℚ) (p : ℕ) (xs : List (Option ℚ)) : List (Option ℚ) :=
  rolling
    (fun w =>
      if p ≤ 1 then none
      else
        let m := w.sum / p
        some (sq ((w.map fun x => (x - m) ^ 2).sum / ((p : ℚ) - 1))))
    p xs

/-- `Series.diff()`: NaN at position 0, `x[i] - x[i-1]` afterwards. -/
def diffQ : List ℚ → List (Option ℚ)
  | [] => []
  | x :: xs => none :: List.zipWith (fun a b => some (b - a)) (x :: xs) xs

/-- `Series.shift()`: NaN at position 0, `x[i-1]` afterwards. -/
def shift1 : List ℚ → List (Option ℚ)
  | [] => []
  | x :: xs => none :: List.zipWith (fun a _ => some a) (x :: xs) xs

/-- Pointwise binary operation on float series with NaN propagation. -/
def omap2 (f : ℚ → ℚ → Option ℚ) (as bs : List (Option ℚ)) : List (Option ℚ) :=
  List.zipWith (fun a b => a.bind fun x => b.bind fun y => f x y) as bs

/-- Pointwise ternary operation on float series with NaN propagation. -/
def omap3 (f : ℚ → ℚ → ℚ → Option ℚ) :
    List (Option ℚ) → List (Option ℚ) → List (Option ℚ) → List (Option ℚ)
  | a :: as, b :: bs, c :: cs =>
    (a.bind fun x => b.bind fun y => c.bind fun z => f x y z) :: omap3 f as bs cs
  | _, _, _ => []

/-- Pointwise ternary operation on NaN-free float series. -/
def zipWith3Q (f : ℚ → ℚ → ℚ → ℚ) : List ℚ → List ℚ → List ℚ → List ℚ
  | a :: as, b :: bs, c :: cs => f a b c :: zipWith3Q f as bs cs
  | _, _, _ => []

/-- `TechnicalIndicators.sma`: `data.rolling(window=period).mean()`. -/
def sma (data : List ℚ) (period : ℕ) : List (Option ℚ) :=
  rollingMean period (data.map some)

/-- `TechnicalIndicators.ema`: `data.ewm(span=period, adjust=False).mean()`,
i.e. the recursion `y[0] = x[0]`, `y[i] = a*x[i] + (1-a)*y[i-1]` with
`a = 2/(period+1)`.  NaN-free on NaN-free input, hence a total list. -/
def ema (data : List ℚ) (period : ℕ) : List ℚ :=
  match data with
  | [] => []
  | x :: xs =>
    let a : ℚ := 2 / ((period : ℚ) + 1)
    List.scanl (fun prev c => a * c + (1 - a) * prev) x xs

/-- `TechnicalIndicators.wma`: rolling window dotted with weights
`1..period`, divided by the weight sum. -/
def wma (data : List ℚ) (period : ℕ) : List (Option ℚ) :=
  rolling
    (fun w =>
      some ((List.zipWith (fun x k => x * k) w
          ((List.range period).map fun j => ((j : ℚ) + 1))).sum /
        ((List.range period).map fun j => ((j : ℚ) + 1)).sum))
    period (data.map some)

/-- The `gain` series of `rsi`: `delta.where(delta > 0, 0)`.  `NaN > 0` is
`False` in pandas, so the NaN at position 0 of `delta` becomes `0`; every
entry is defined and non-negative. -/
def rsiGain (data : List ℚ) : List (Option ℚ) :=
  (diffQ data).map fun d =>
    some (match d with | some v => if 0 < v then v else 0 | none => 0)

/-- The `loss` series of `rsi`: `-delta.where(delta < 0, 0)`. -/
def rsiLoss (data : List ℚ) : List (Option ℚ) :=
  (diffQ data).map fun d =>
    some (match d with | some v => if v < 0 then -v else 0 | none => 0)

/-- `gain.rolling(window=period).mean()` inside `rsi`. -/
def rsiAvgGain (data : List ℚ) (period : ℕ) : List (Option ℚ) :=
  rollingMean period (rsiGain data)

/-- `loss.rolling(window=period).mean()` inside `rsi`. -/
def rsiAvgLoss (data : List ℚ) (period : ℕ) : List (Option ℚ) :=
  rollingMean period (rsiLoss data)

/-- The pointwise value `100 - 100/(1 + g/l)` of `rsi`, with the IEEE cases
of `rs = g / l` spelt out: `0/0` is NaN; `g/0` with `g ≠ 0` is infinite and
the formula collapses to `100`; a zero denominator `1 + g/l` would give an
infinite result (unreachable here since `g, l ≥ 0`). -/
def rsiPoint (g l : ℚ) : Option ℚ :=
  if l = 0 then (if g = 0 then none else some 100)
  else if 1 + g / l = 0 then none
  else some (100 - 100 / (1 + g / l))

/-- `TechnicalIndicators.rsi`. -/
def rsi (data : List ℚ) (period : ℕ := 14) : List (Option ℚ) :=
  omap2 rsiPoint (rsiAvgGain data period) (rsiAvgLoss data period)

/-- `TechnicalIndicators.bollinger_bands`: `(upper, middle, lower)` where
`middle = sma`, `std` the rolling sample standard deviation (square root
abstracted as `sq`, see `rollingStd`). -/
def bollinger_bands (sq : ℚ → ℚ) (data : List ℚ) (period : ℕ := 20)
    (std_dev : ℚ := 2) :
    List (Option ℚ) × List (Option ℚ) × List (Option ℚ) :=
  let middle := sma data period
  let std := rollingStd sq period (data.map some)
  (omap2 (fun m s => some (m + s * std_dev)) middle std, middle,
    omap2 (fun m s => some (m - s * std_dev)) middle std)

/-- The pointwise `%K` value of `stochastic`:
`100 * (close - lowest_low) / (highest_high - lowest_low)`; a zero range
gives `0/0` NaN (or `±inf` when `close` lies outside the range, also
modelled as no value). -/
def stochPoint (c h l : ℚ) : Option ℚ :=
  if h - l = 0 then none else some (100 * (c - l) / (h - l))

/-- `TechnicalIndicators.stochastic`: `(%K, %D)`. -/
def stochastic (high low close : List ℚ) (k_period : ℕ := 14) (d_period : ℕ := 3) :
    List (Option ℚ) × List (Option ℚ) :=
  let lowest_low := rollingMin k_period (low.map some)
  let highest_high := rollingMax k_period (high.map some)
  let k := omap3 (fun c h l => stochPoint c h l) (close.map some) highest_high lowest_low
  (k, rollingMean d_period k)

/-- The true-range series of `atr`: the row-wise maximum of `high - low`,
`|high - close.shift()|`, `|low - close.shift()|`.  Pandas `max(axis=1)`
skips NaN, so at position 0 (where `close.shift()` is NaN) the maximum is
just `high - low`; every entry is defined. -/
def trueRange : List ℚ → List ℚ → List (Option ℚ) → List (Option ℚ)
  | h :: hs, l :: ls, c :: cs =>
    (match c with
      | some cp => some (max (h - l) (max |h - cp| |l - cp|))
      | none => some (h - l)) :: trueRange hs ls cs
  | _, _, _ => []

/-- `TechnicalIndicators.atr`: rolling mean of the true range. -/
def atr (high low close : List ℚ) (period : ℕ := 14) : List (Option ℚ) :=
  rollingMean period (trueRange high low (shift1 close))

/-- `+DM` of `adx`: `up_move.where((up_move > down_move) & (up_move > 0), 0)`
with `up_move = high.diff()`, `down_move = -low.diff()`.  Comparisons with
NaN are `False`, so position 0 is `0`; every entry is defined and
non-negative. -/
def dmPlus (high low : List ℚ) : List (Option ℚ) :=
  List.zipWith
    (fun u d =>
      some (match u, d with
        | some uv, some dv => if -dv < uv ∧ 0 < uv then uv else 0
        | _, _ => 0))
    (diffQ high) (diffQ low)

/-- `-DM` of `adx` (the `d` argument is `low.diff()`, negated inside). -/
def dmMinus (high low : List ℚ) : List (Option ℚ) :=
  List.zipWith
    (fun u d =>
      some (match u, d with
        | some uv, some dv => if uv < -dv ∧ 0 < -dv then -dv else 0
        | _, _ => 0))
    (diffQ high) (diffQ low)

/-- The pointwise `DX` value of `adx` from the smoothed `+DM`, `-DM` and
`ATR` values.  IEEE case analysis for `atr = 0`: the `+DI`/`-DI` divisions
give `inf` or NaN and `DX = 100*|+DI - -DI|/(+DI + -DI)` is NaN in every
subcase (`inf - inf`, `inf/inf`, or `0/0`); for `atr ≠ 0` the smoothed
`±DM` are non-negative so `+DI + -DI = 0` forces `0/0` NaN. -/
def dxPoint (g l a : ℚ) : Option ℚ :=
  if a = 0 then none
  else
    let pdi := 100 * (g / a)
    let mdi := 100 * (l / a)
    if pdi + mdi = 0 then none
    else some (100 * |pdi - mdi| / (pdi + mdi))

/-- `TechnicalIndicators.adx`. -/
def adx (high low close : List ℚ) (period : ℕ := 14) : List (Option ℚ) :=
  rollingMean period
    (omap3 dxPoint (rollingMean period (dmPlus high low))
      (rollingMean period (dmMinus high low)) (atr high low close period))

/-- `np.sign` on a float. -/
def pySign (d : ℚ) : ℚ := if 0 < d then 1 else if d < 0 then -1 else 0

/-- The summand series of `obv`: `(np.sign(close.diff()) * volume).fillna(0)`;
the NaN of `diff` at position 0 makes the product NaN, which `fillna`
replaces by 0. -/
def obvSteps (close volume : List ℚ) : List ℚ :=
  List.zipWith
    (fun d v => match d with | some dv => pySign dv * v | none => 0)
    (diffQ close) volume

/-- Running cumulative sum (`Series.cumsum()`) starting from `acc`. -/
def cumsum (acc : ℚ) : List ℚ → List ℚ
  | [] => []
  | x :: xs => (acc + x) :: cumsum (acc + x) xs

/-- `TechnicalIndicators.obv`. -/
def obv (close volume : List ℚ) : List ℚ :=
  cumsum 0 (obvSteps close volume)

/-- The positive money-flow series of `mfi`:
`money_flow.where(typical_price > typical_price.shift(), 0)`; the comparison
with the NaN of `shift` at position 0 is `False`, so every entry is
defined. -/
def flowPos : List ℚ → List ℚ → List (Option ℚ) → List (Option ℚ)
  | m :: ms, t :: ts, pr :: prs =>
    some (match pr with | some pv => if pv < t then m else 0 | none => 0) ::
      flowPos ms ts prs
  | _, _, _ => []

/-- The negative money-flow series of `mfi`. -/
def flowNeg : List ℚ → List ℚ → List (Option ℚ) → List (Option ℚ)
  | m :: ms, t :: ts, pr :: prs =>
    some (match pr with | some pv => if t < pv then m else 0 | none => 0) ::
      flowNeg ms ts prs
  | _, _, _ => []

/-- The pointwise value `100 - 100/(1 + pos/neg)` of `mfi`, IEEE cases as in
`rsiPoint`: `neg = 0` gives NaN when `pos = 0` and `100` otherwise (the
ratio is `±inf` and the formula collapses); a zero `1 + pos/neg` would give
an infinite result, modelled as no value. -/
def mfiPoint (pos neg : ℚ) : Option ℚ :=
  if neg = 0 then (if pos = 0 then none else some 100)
  else if 1 + pos / neg = 0 then none
  else some (100 - 100 / (1 + pos / neg))

/-- `TechnicalIndicators.mfi`. -/
def mfi (high low close volume : List ℚ) (period : ℕ := 14) : List (Option ℚ) :=
  let typical_price := zipWith3Q (fun h l c => (h + l + c) / 3) high low close
  let money_flow := List.zipWith (fun t v => t * v) typical_price volume
  let tps := shift1 typical_price
  omap2 mfiPoint (rollingSum period (flowPos money_flow typical_price tps))
    (rollingSum period (flowNeg money_flow typical_price tps))

/-! ## Helper lemmas: fundamental engine -/

/-- The inclusion rule `analyze_company` actually implements for one ratio:
present iff the raw computed value is defined and non-zero, stored rounded. -/
def reportedRatio (v : Option ℚ) : Option ℚ :=
  match v with
  | none => none
  | some x => if x = 0 then none else some (round2 x)

theorem lookup_entry_same (k : String) (v : Option ℚ) (rest : List (String × ℚ)) :
    (ratioEntry k v ++ rest).lookup k =
      match v with
      | none => rest.lookup k
      | some x => if x = 0 then rest.lookup k else some (round2 x) := by
  cases v with
  | none => simp [ratioEntry]
  | some x =>
    by_cases hx : x = 0 <;> simp [ratioEntry, hx, List.lookup]

theorem lookup_entry_ne {k k' : String} (h : k ≠ k') (v : Option ℚ)
    (rest : List (String × ℚ)) :
    (ratioEntry k' v ++ rest).lookup k = rest.lookup k := by
  have hb : (k == k') = false := beq_eq_false_iff_ne.mpr h
  cases v with
  | none => simp [ratioEntry]
  | some x =>
    by_cases hx : x = 0 <;> simp [ratioEntry, hx, List.lookup, hb]

theorem lookup_entry_bare (k : String) (v : Option ℚ) :
    (ratioEntry k v).lookup k = reportedRatio v := by
  have := lookup_entry_same k v []
  simpa [reportedRatio] using this

theorem lookup_entry_ne_bare {k k' : String} (h : k ≠ k') (v : Option ℚ) :
    (ratioEntry k' v).lookup k = none := by
  have := lookup_entry_ne h v []
  simpa using this

theorem lookup_peg_ne {k : String} (h : k ≠ "peg_ratio") (pe : Option ℚ) (eg : ℚ)
    (rest : List (String × ℚ)) :
    (pegEntryOf pe eg ++ rest).lookup k = rest.lookup k := by
  cases pe with
  | none => simp [pegEntryOf]
  | some v =>
    by_cases hg : v ≠ 0 ∧ eg ≠ 0
    · simp only [pegEntryOf, if_pos hg]
      exact lookup_entry_ne h _ rest
    · simp [pegEntryOf, hg]

theorem lookup_peg_same (pe : Option ℚ) (eg : ℚ) (rest : List (String × ℚ)) :
    (pegEntryOf pe eg ++ rest).lookup "peg_ratio" =
      match pe with
      | none => rest.lookup "peg_ratio"
      | some v =>
        if v ≠ 0 ∧ eg ≠ 0 then
          match peg_ratio v eg with
          | none => rest.lookup "peg_ratio"
          | some x => if x = 0 then rest.lookup "peg_ratio" else some (round2 x)
        else rest.lookup "peg_ratio" := by
  cases pe with
  | none => simp [pegEntryOf]
  | some v =>
    by_cases hg : v ≠ 0 ∧ eg ≠ 0
    · simp only [pegEntryOf, if_pos hg]
      exact lookup_entry_same _ _ rest
    · simp [pegEntryOf, hg]

theorem mem_ite1 {x s : String} {c : Bool} :
    (x ∈ if c then [s] else []) ↔ c = true ∧ x = s := by
  cases c <;> simp

theorem mem_ite2 {x s1 s2 : String} {c1 c2 : Bool} :
    (x ∈ if c1 then [s1] else if c2 then [s2] else []) ↔
      (c1 = true ∧ x = s1) ∨ (c1 = false ∧ c2 = true ∧ x = s2) := by
  cases c1 <;> cases c2 <;> simp

/-! ## Claims C1, C2, C9, C10 -/

/-- C1 counterexample: with `price = 0.01, eps = 10` the computed P/E is
`0.001`, truthy, so the code stores `round(0.001, 2) = 0.0` in the report;
the claim says a ratio whose rounded value is zero is omitted. -/
theorem claim_C1_counterexample :
    pe_ratio (1 / 100) 10 = some (1 / 1000) ∧ round2 (1 / 1000) = 0 ∧
      (analyze_company
          (FinancialData.mk (1 / 100) 10 0 0 0 0 0 0 0 0 0)).ratios.lookup "pe_ratio" =
        some 0 := by
  refine ⟨by norm_num [pe_ratio], by norm_num [round2, roundHalfEven], ?_⟩
  norm_num [analyze_company, ratiosOf, ratioEntry, pegEntryOf, pe_ratio, pb_ratio, roe, roa,
    debt_to_equity, current_ratio, dividend_yield, peg_ratio, List.lookup, round2, roundHalfEven]

/-- C1 (amended): a ratio is included in the `ratios` mapping iff its raw
computed value is defined and non-zero (Python truthiness on the unrounded
value); the stored value is the raw value rounded to 2 places, which may be
zero.  Stated as an exact characterisation of every key's lookup. -/
theorem claim_C1_amended (fd : FinancialData) :
    ((analyze_company fd).ratios.lookup "pe_ratio" =
        reportedRatio (pe_ratio fd.price fd.eps)) ∧
    ((analyze_company fd).ratios.lookup "pb_ratio" =
        reportedRatio (pb_ratio fd.price fd.book_value_per_share)) ∧
    ((analyze_company fd).ratios.lookup "peg_ratio" =
        match pe_ratio fd.price fd.eps with
        | none => none
        | some v =>
          if v ≠ 0 ∧ fd.earnings_growth_rate ≠ 0 then
            reportedRatio (peg_ratio v fd.earnings_growth_rate)
          else none) ∧
    ((analyze_company fd).ratios.lookup "roe" =
        reportedRatio (roe fd.net_income fd.shareholders_equity)) ∧
    ((analyze_company fd).ratios.lookup "roa" =
        reportedRatio (roa fd.net_income fd.total_assets)) ∧
    ((analyze_company fd).ratios.lookup "debt_to_equity" =
        reportedRatio (debt_to_equity fd.total_debt fd.shareholders_equity)) ∧
    ((analyze_company fd).ratios.lookup "current_ratio" =
        reportedRatio (current_ratio fd.current_assets fd.current_liabilities)) ∧
    ((analyze_company fd).ratios.lookup "dividend_yield" =
        reportedRatio (dividend_yield fd.annual_dividend fd.price)) := by
  refine ⟨?_, ?_, ?_, ?_, ?_, ?_, ?_, ?_⟩ <;> simp only [analyze_company, ratiosOf]
  · rw [lookup_entry_same]
    cases hv : pe_ratio fd.price fd.eps with
    | none =>
      simp only [reportedRatio]
      rw [lookup_entry_ne (by decide), lookup_peg_ne (by decide), lookup_entry_ne (by decide),
        lookup_entry_ne (by decide), lookup_entry_ne (by decide), lookup_entry_ne (by decide)]
      exact lookup_entry_ne_bare (by decide) _
    | some x =>
      by_cases hx : x = 0
      · simp only [reportedRatio, if_pos hx]
        rw [lookup_entry_ne (by decide), lookup_peg_ne (by decide), lookup_entry_ne (by decide),
          lookup_entry_ne (by decide), lookup_entry_ne (by decide), lookup_entry_ne (by decide)]
        exact lookup_entry_ne_bare (by decide) _
      · simp [reportedRatio, hx]
  · rw [lookup_entry_ne (by decide), lookup_entry_same]
    cases hv : pb_ratio fd.price fd.book_value_per_share with
    | none =>
      simp only [reportedRatio]
      rw [lookup_peg_ne (by decide), lookup_entry_ne (by decide),
        lookup_entry_ne (by decide), lookup_entry_ne (by decide), lookup_entry_ne (by decide)]
      exact lookup_entry_ne_bare (by decide) _
    | some x =>
      by_cases hx : x = 0
      · simp only [reportedRatio, if_pos hx]
        rw [lookup_peg_ne (by decide), lookup_entry_ne (by decide),
          lookup_entry_ne (by decide), lookup_entry_ne (by decide), lookup_entry_ne (by decide)]
        exact lookup_entry_ne_bare (by decide) _
      · simp [reportedRatio, hx]
  · rw [lookup_entry_ne (by decide), lookup_entry_ne (by decide), lookup_peg_same]
    have hrest :
        (ratioEntry "roe" (roe fd.net_income fd.shareholders_equity) ++
            (ratioEntry "roa" (roa fd.net_income fd.total_assets) ++
              (ratioEntry "debt_to_equity"
                  (debt_to_equity fd.total_debt fd.shareholders_equity) ++
                (ratioEntry "current_ratio"
                    (current_ratio fd.current_assets fd.current_liabilities) ++
                  ratioEntry "dividend_yield"
                    (dividend_yield fd.annual_dividend fd.price))))).lookup "peg_ratio" =
          none := by
      rw [lookup_entry_ne (by decide), lookup_entry_ne (by decide),
        lookup_entry_ne (by decide), lookup_entry_ne (by decide)]
      exact lookup_entry_ne_bare (by decide) _
    cases hv : pe_ratio fd.price fd.eps with
    | none => exact hrest
    | some v =>
      by_cases hg : v ≠ 0 ∧ fd.earnings_growth_rate ≠ 0
      · simp only [if_pos hg]
        cases hpeg : peg_ratio v fd.earnings_growth_rate with
        | none => simpa [reportedRatio] using hrest
        | some x =>
          by_cases hx : x = 0
          · simpa [reportedRatio, hx] using hrest
          · simp [reportedRatio, hx]
      · simp only [if_neg hg]
        exact hrest
  · rw [lookup_entry_ne (by decide), lookup_entry_ne (by decide), lookup_peg_ne (by decide),
      lookup_entry_same]
    cases hv : roe fd.net_income fd.shareholders_equity with
    | none =>
      simp only [reportedRatio]
      rw [lookup_entry_ne (by decide), lookup_entry_ne (by decide), lookup_entry_ne (by decide)]
      exact lookup_entry_ne_bare (by decide) _
    | some x =>
      by_cases hx : x = 0
      · simp only [reportedRatio, if_pos hx]
        rw [lookup_entry_ne (by decide), lookup_entry_ne (by decide), lookup_entry_ne (by decide)]
        exact lookup_entry_ne_bare (by decide) _
      · simp [reportedRatio, hx]
  · rw [lookup_entry_ne (by decide), lookup_entry_ne (by decide), lookup_peg_ne (by decide),
      lookup_entry_ne (by decide), lookup_entry_same]
    cases hv : roa fd.net_income fd.total_assets with
    | none =>
      simp only [reportedRatio]
      rw [lookup_entry_ne (by decide), lookup_entry_ne (by decide)]
      exact lookup_entry_ne_bare (by decide) _
    | some x =>
      by_cases hx : x = 0
      · simp only [reportedRatio, if_pos hx]
        rw [lookup_entry_ne (by decide), lookup_entry_ne (by decide)]
        exact lookup_entry_ne_bare (by decide) _
      · simp [reportedRatio, hx]
  · rw [lookup_entry_ne (by decide), lookup_entry_ne (by decide), lookup_peg_ne (by decide),
      lookup_entry_ne (by decide), lookup_entry_ne (by decide), lookup_entry_same]
    cases hv : debt_to_equity fd.total_debt fd.shareholders_equity with
    | none =>
      simp only [reportedRatio]
      rw [lookup_entry_ne (by decide)]
      exact lookup_entry_ne_bare (by decide) _
    | some x =>
      by_cases hx : x = 0
      · simp only [reportedRatio, if_pos hx]
        rw [lookup_entry_ne (by decide)]
        exact lookup_entry_ne_bare (by decide) _
      · simp [reportedRatio, hx]
  · rw [lookup_entry_ne (by decide), lookup_entry_ne (by decide), lookup_peg_ne (by decide),
      lookup_entry_ne (by decide), lookup_entry_ne (by decide), lookup_entry_ne (by decide),
      lookup_entry_same]
    cases hv : current_ratio fd.current_assets fd.current_liabilities with
    | none =>
      simp only [reportedRatio]
      exact lookup_entry_ne_bare (by decide) _
    | some x =>
      by_cases hx : x = 0
      · simp only [reportedRatio, if_pos hx]
        exact lookup_entry_ne_bare (by decide) _
      · simp [reportedRatio, hx]
  · rw [lookup_entry_ne (by decide), lookup_entry_ne (by decide), lookup_peg_ne (by decide),
      lookup_entry_ne (by decide), lookup_entry_ne (by decide), lookup_entry_ne (by decide),
      lookup_entry_ne (by decide), lookup_entry_bare]

/-- C2: every ratio function returns no value exactly when its denominator
(second) argument is zero, and otherwise the quotient given by its formula;
in particular `pe_ratio 100 0` is no value and `pe_ratio 100 10 = 10`. -/
theorem claim_C2 (a b : ℚ) :
    (pe_ratio a b = none ↔ b = 0) ∧ (b ≠ 0 → pe_ratio a b = some (a / b)) ∧
    (pb_ratio a b = none ↔ b = 0) ∧ (b ≠ 0 → pb_ratio a b = some (a / b)) ∧
    (peg_ratio a b = none ↔ b = 0) ∧ (b ≠ 0 → peg_ratio a b = some (a / b)) ∧
    (roe a b = none ↔ b = 0) ∧ (b ≠ 0 → roe a b = some (a / b * 100)) ∧
    (roa a b = none ↔ b = 0) ∧ (b ≠ 0 → roa a b = some (a / b * 100)) ∧
    (debt_to_equity a b = none ↔ b = 0) ∧ (b ≠ 0 → debt_to_equity a b = some (a / b)) ∧
    (current_ratio a b = none ↔ b = 0) ∧ (b ≠ 0 → current_ratio a b = some (a / b)) ∧
    (dividend_yield a b = none ↔ b = 0) ∧ (b ≠ 0 → dividend_yield a b = some (a / b * 100)) ∧
    (eps_growth a b = none ↔ b = 0) ∧
    (b ≠ 0 → eps_growth a b = some ((a - b) / |b| * 100)) ∧
    pe_ratio 100 0 = none ∧ pe_ratio 100 10 = some 10 := by
  by_cases hb : b = 0 <;>
    norm_num [pe_ratio, pb_ratio, peg_ratio, roe, roa, debt_to_equity, current_ratio,
      dividend_yield, eps_growth, hb] <;>
    simp

/-- C2 witness at a concrete input: the denominator-10 call produces the
quotient and the denominator-0 call produces no value. -/
theorem claim_C2_witness : pe_ratio 100 10 = some (100 / 10) ∧ pe_ratio 100 0 = none :=
  ⟨(claim_C2 100 10).2.1 (by norm_num), (claim_C2 100 0).1.mpr rfl⟩

/-- C9 counterexample: with `current_assets = 0, current_liabilities = 100`
the current ratio is defined and equal to `0 < 1`, yet no liquidity signal is
appended (`if cr and cr < 1:` is falsy at `0.0`), so a defined ratio below 1
does not always trigger the low-liquidity signal. -/
theorem claim_C9_counterexample :
    current_ratio 0 100 = some 0 ∧ (0 : ℚ) < 1 ∧
      (analyze_company (FinancialData.mk 0 0 0 0 0 0 0 0 100 0 0)).signals = [] := by
  refine ⟨by norm_num [current_ratio], by norm_num, ?_⟩
  norm_num [analyze_company, signalsOf, tLT, tGT, pe_ratio, roe, debt_to_equity,
    current_ratio]

/-- C9 (amended): when the current ratio is defined and non-zero, a value
above 1.5 appends exactly the good-liquidity signal, a value below 1 exactly
the low-liquidity signal, values in `[1, 1.5]` neither, and the two signals
are mutually exclusive; a defined ratio of exactly 0 (excluded here) appends
neither because of the truthiness guard. -/
theorem claim_C9_amended (fd : FinancialData) (v : ℚ)
    (hcr : current_ratio fd.current_assets fd.current_liabilities = some v) (hv : v ≠ 0) :
    (("Good liquidity (CR > 1.5)" ∈ (analyze_company fd).signals ↔ 3 / 2 < v) ∧
      ("Low liquidity (CR < 1)" ∈ (analyze_company fd).signals ↔ v < 1)) ∧
    ¬("Good liquidity (CR > 1.5)" ∈ (analyze_company fd).signals ∧
        "Low liquidity (CR < 1)" ∈ (analyze_company fd).signals) := by
  have e1 : ("Good liquidity (CR > 1.5)" : String) ≠ "Low P/E ratio (potentially undervalued)" :=
    by decide
  have e2 : ("Good liquidity (CR > 1.5)" : String) ≠ "High P/E ratio (potentially overvalued)" :=
    by decide
  have e3 : ("Good liquidity (CR > 1.5)" : String) ≠ "Good ROE (>15%)" := by decide
  have e4 : ("Good liquidity (CR > 1.5)" : String) ≠ "Low debt-to-equity (financially stable)" :=
    by decide
  have e5 : ("Good liquidity (CR > 1.5)" : String) ≠ "High debt-to-equity (high leverage)" :=
    by decide
  have e6 : ("Good liquidity (CR > 1.5)" : String) ≠ "Low liquidity (CR < 1)" := by decide
  have f1 : ("Low liquidity (CR < 1)" : String) ≠ "Low P/E ratio (potentially undervalued)" :=
    by decide
  have f2 : ("Low liquidity (CR < 1)" : String) ≠ "High P/E ratio (potentially overvalued)" :=
    by decide
  have f3 : ("Low liquidity (CR < 1)" : String) ≠ "Good ROE (>15%)" := by decide
  have f4 : ("Low liquidity (CR < 1)" : String) ≠ "Low debt-to-equity (financially stable)" :=
    by decide
  have f5 : ("Low liquidity (CR < 1)" : String) ≠ "High debt-to-equity (high leverage)" :=
    by decide
  have f6 : ("Low liquidity (CR < 1)" : String) ≠ "Good liquidity (CR > 1.5)" := by decide
  have hgood : ("Good liquidity (CR > 1.5)" ∈ (analyze_company fd).signals) ↔ 3 / 2 < v := by
    simp only [analyze_company, signalsOf, List.mem_append, mem_ite2, mem_ite1, hcr]
    simp [e1, e2, e3, e4, e5, e6, tGT, hv, decide_eq_true_eq]
  have hlow : ("Low liquidity (CR < 1)" ∈ (analyze_company fd).signals) ↔ v < 1 := by
    simp only [analyze_company, signalsOf, List.mem_append, mem_ite2, mem_ite1, hcr]
    simp only [f1, f2, f3, f4, f5, f6, tGT, tLT, decide_eq_true_eq, decide_eq_false_iff_not,
      false_and, and_false, or_false, false_or, and_true, true_and, not_and]
    constructor
    · rintro ⟨-, -, h⟩
      exact h
    · intro h
      exact ⟨fun _ h32 => (by linarith : False).elim, hv, h⟩
  refine ⟨⟨hgood, hlow⟩, ?_⟩
  rintro ⟨hg, hl⟩
  rw [hgood] at hg
  rw [hlow] at hl
  linarith

/-- C9 witness: a snapshot with `current_assets = 200,
current_liabilities = 100` has current ratio 2 and receives the
good-liquidity signal. -/
theorem claim_C9_witness :
    "Good liquidity (CR > 1.5)" ∈
      (analyze_company (FinancialData.mk 0 0 0 0 0 0 0 200 100 0 0)).signals := by
  have h := claim_C9_amended (FinancialData.mk 0 0 0 0 0 0 0 200 100 0 0) 2
    (by norm_num [current_ratio]) (by norm_num)
  exact h.1.1.mpr (by norm_num)

/-- C10: the result of `analyze_company` is exactly the three-field record
`{ratios, scores, signals}` (the `AnalysisResult` structure mirrors the
dictionary literal, whose key set is never extended), and `scores` is always
empty: no statement of the function ever writes to it. -/
theorem claim_C10 (fd : FinancialData) :
    (analyze_company fd).scores = [] ∧
      analyze_company fd = AnalysisResult.mk (ratiosOf fd) [] (signalsOf fd) :=
  ⟨rfl, rfl⟩

/-! ## Helper lemmas: technical engine -/

theorem length_rolling (f : List ℚ → Option ℚ) (p : ℕ) (xs : List (Option ℚ)) :
    (rolling f p xs).length = xs.length := by
  simp [rolling]

theorem get?_rolling (f : List ℚ → Option ℚ) (p : ℕ) {xs : List (Option ℚ)} {i : ℕ}
    (h : i < xs.length) :
    (rolling f p xs).get? i =
      some (if p ≤ i + 1 then (seqOpt (trailWin p i xs)).bind f else none) := by
  simp [rolling, List.get?_map, List.getElem?_range h]

theorem seqOpt_map_some (l : List ℚ) : seqOpt (l.map some) = some l := by
  induction l with
  | nil => rfl
  | cons x xs ih => simp [seqOpt, ih]

theorem seqOpt_eq_some {xs : List (Option ℚ)} {l : List ℚ} (h : seqOpt xs = some l) :
    xs = l.map some := by
  induction xs generalizing l with
  | nil =>
    simp only [seqOpt, Option.some_inj] at h
    simp [← h]
  | cons x rest ih =>
    cases x with
    | none => simp [seqOpt] at h
    | some v =>
      simp only [seqOpt, Option.map_eq_some'] at h
      obtain ⟨a, ha, hl⟩ := h
      simp [← hl, ih ha]

theorem seqOpt_none_of_mem {xs : List (Option ℚ)} (hne : xs ≠ []) (h : ∀ x ∈ xs, x = none) :
    seqOpt xs = none := by
  cases xs with
  | nil => exact absurd rfl hne
  | cons x rest =>
    have hx : x = none := h x (by simp)
    subst hx
    rfl

theorem trailWin_length {p i : ℕ} {xs : List (Option ℚ)} (hp : p ≤ i + 1)
    (h : i < xs.length) : (trailWin p i xs).length = p := by
  simp only [trailWin, List.length_drop, List.length_take]
  omega

theorem mem_trailWin {x : Option ℚ} {p i : ℕ} {xs : List (Option ℚ)}
    (h : x ∈ trailWin p i xs) : x ∈ xs :=
  List.mem_of_mem_take (List.mem_of_mem_drop h)

theorem rolling_none_of_lt {f : List ℚ → Option ℚ} {p : ℕ} {xs : List (Option ℚ)}
    (h : xs.length < p) : ∀ x ∈ rolling f p xs, x = none := by
  intro x hx
  simp only [rolling, List.mem_map, List.mem_range] at hx
  obtain ⟨i, hi, rfl⟩ := hx
  rw [if_neg (by omega)]

theorem rolling_none_of_none {f : List ℚ → Option ℚ} {p : ℕ} {xs : List (Option ℚ)}
    (hp : 1 ≤ p) (hxs : ∀ x ∈ xs, x = none) : ∀ x ∈ rolling f p xs, x = none := by
  intro x hx
  simp only [rolling, List.mem_map, List.mem_range] at hx
  obtain ⟨i, hi, rfl⟩ := hx
  by_cases hc : p ≤ i + 1
  · rw [if_pos hc]
    have hw : seqOpt (trailWin p i xs) = none := by
      apply seqOpt_none_of_mem
      · have hl := trailWin_length hc hi
        intro he
        rw [he] at hl
        simp only [List.length_nil] at hl
        omega
      · intro y hy
        exact hxs y (mem_trailWin hy)
    rw [hw]
    rfl
  · rw [if_neg hc]

theorem length_omap2 (f : ℚ → ℚ → Option ℚ) (as bs : List (Option ℚ)) :
    (omap2 f as bs).length = min as.length bs.length := by
  simp [omap2]

theorem omap2_none_left (f : ℚ → ℚ → Option ℚ) (as bs : List (Option ℚ))
    (h : ∀ x ∈ as, x = none) : ∀ x ∈ omap2 f as bs, x = none := by
  induction as generalizing bs with
  | nil => simp [omap2]
  | cons a as ih =>
    cases bs with
    | nil => simp [omap2]
    | cons b bs =>
      have ha : a = none := h a (by simp)
      subst ha
      intro x hx
      simp only [omap2, List.zipWith_cons_cons] at hx
      rcases List.mem_cons.mp hx with rfl | hx'
      · rfl
      · exact ih bs (fun y hy => h y (by simp [hy])) x hx'

theorem omap2_none_right (f : ℚ → ℚ → Option ℚ) (as bs : List (Option ℚ))
    (h : ∀ x ∈ bs, x = none) : ∀ x ∈ omap2 f as bs, x = none := by
  induction as generalizing bs with
  | nil => simp [omap2]
  | cons a as ih =>
    cases bs with
    | nil => simp [omap2]
    | cons b bs =>
      have hb : b = none := h b (by simp)
      subst hb
      intro x hx
      simp only [omap2, List.zipWith_cons_cons] at hx
      rcases List.mem_cons.mp hx with rfl | hx'
      · cases a <;> rfl
      · exact ih bs (fun y hy => h y (by simp [hy])) x hx'

theorem length_omap3 (f : ℚ → ℚ → ℚ → Option ℚ) :
    ∀ as bs cs : List (Option ℚ),
      (omap3 f as bs cs).length = min as.length (min bs.length cs.length)
  | [], _, _ => by simp [omap3]
  | _ :: _, [], _ => by simp [omap3]
  | _ :: _, _ :: _, [] => by simp [omap3]
  | a :: as, b :: bs, c :: cs => by
    simp only [omap3, List.length_cons, length_omap3 f as bs cs]
    omega

theorem omap3_none_first (f : ℚ → ℚ → ℚ → Option ℚ) :
    ∀ as bs cs : List (Option ℚ), (∀ x ∈ as, x = none) →
      ∀ x ∈ omap3 f as bs cs, x = none
  | [], _, _, _ => by simp [omap3]
  | _ :: _, [], _, _ => by simp [omap3]
  | _ :: _, _ :: _, [], _ => by simp [omap3]
  | a :: as, b :: bs, c :: cs, h => by
    have ha : a = none := h a (by simp)
    subst ha
    intro x hx
    rcases List.mem_cons.mp hx with rfl | hx'
    · rfl
    · exact omap3_none_first f as bs cs (fun y hy => h y (by simp [hy])) x hx'

theorem omap3_none_second (f : ℚ → ℚ → ℚ → Option ℚ) :
    ∀ as bs cs : List (Option ℚ), (∀ x ∈ bs, x = none) →
      ∀ x ∈ omap3 f as bs cs, x = none
  | [], _, _, _ => by simp [omap3]
  | _ :: _, [], _, _ => by simp [omap3]
  | _ :: _, _ :: _, [], _ => by simp [omap3]
  | a :: as, b :: bs, c :: cs, h => by
    have hb : b = none := h b (by simp)
    subst hb
    intro x hx
    rcases List.mem_cons.mp hx with rfl | hx'
    · cases a <;> rfl
    · exact omap3_none_second f as bs cs (fun y hy => h y (by simp [hy])) x hx'

theorem length_zipWith3Q (f : ℚ → ℚ → ℚ → ℚ) :
    ∀ as bs cs : List ℚ,
      (zipWith3Q f as bs cs).length = min as.length (min bs.length cs.length)
  | [], _, _ => by simp [zipWith3Q]
  | _ :: _, [], _ => by simp [zipWith3Q]
  | _ :: _, _ :: _, [] => by simp [zipWith3Q]
  | a :: as, b :: bs, c :: cs => by
    simp only [zipWith3Q, List.length_cons, length_zipWith3Q f as bs cs]
    omega

theorem length_trueRange :
    ∀ (hs ls : List ℚ) (cs : List (Option ℚ)),
      (trueRange hs ls cs).length = min hs.length (min ls.length cs.length)
  | [], _, _ => by simp [trueRange]
  | _ :: _, [], _ => by simp [trueRange]
  | _ :: _, _ :: _, [] => by simp [trueRange]
  | h :: hs, l :: ls, c :: cs => by
    simp only [trueRange, List.length_cons, length_trueRange hs ls cs]
    omega

theorem length_flowPos :
    ∀ (ms ts : List ℚ) (ps : List (Option ℚ)),
      (flowPos ms ts ps).length = min ms.length (min ts.length ps.length)
  | [], _, _ => by simp [flowPos]
  | _ :: _, [], _ => by simp [flowPos]
  | _ :: _, _ :: _, [] => by simp [flowPos]
  | m :: ms, t :: ts, pr :: ps => by
    simp only [flowPos, List.length_cons, length_flowPos ms ts ps]
    omega

theorem length_flowNeg :
    ∀ (ms ts : List ℚ) (ps : List (Option ℚ)),
      (flowNeg ms ts ps).length = min ms.length (min ts.length ps.length)
  | [], _, _ => by simp [flowNeg]
  | _ :: _, [], _ => by simp [flowNeg]
  | _ :: _, _ :: _, [] => by simp [flowNeg]
  | m :: ms, t :: ts, pr :: ps => by
    simp only [flowNeg, List.length_cons, length_flowNeg ms ts ps]
    omega

theorem length_diffQ (xs : List ℚ) : (diffQ xs).length = xs.length := by
  cases xs with
  | nil => rfl
  | cons x rest =>
    simp only [diffQ, List.length_cons, List.length_zipWith]
    omega

theorem length_shift1 (xs : List ℚ) : (shift1 xs).length = xs.length := by
  cases xs with
  | nil => rfl
  | cons x rest =>
    simp only [shift1, List.length_cons, List.length_zipWith]
    omega

theorem length_cumsum (a : ℚ) (xs : List ℚ) : (cumsum a xs).length = xs.length := by
  induction xs generalizing a with
  | nil => rfl
  | cons x rest ih => simp [cumsum, ih]

theorem eq_replicate_none {l : List (Option ℚ)} {n : ℕ} (h1 : l.length = n)
    (h2 : ∀ x ∈ l, x = none) : l = List.replicate n none :=
  List.eq_replicate_iff.mpr ⟨h1, h2⟩

theorem rsiGain_nonneg (data : List ℚ) :
    ∀ o ∈ rsiGain data, ∀ v : ℚ, o = some v → 0 ≤ v := by
  intro o ho v hv
  simp only [rsiGain, List.mem_map] at ho
  obtain ⟨d, hd, rfl⟩ := ho
  injection hv with hv
  subst hv
  cases d with
  | none => norm_num
  | some δ =>
    dsimp only
    split <;> linarith

theorem rsiLoss_nonneg (data : List ℚ) :
    ∀ o ∈ rsiLoss data, ∀ v : ℚ, o = some v → 0 ≤ v := by
  intro o ho v hv
  simp only [rsiLoss, List.mem_map] at ho
  obtain ⟨d, hd, rfl⟩ := ho
  injection hv with hv
  subst hv
  cases d with
  | none => norm_num
  | some δ =>
    dsimp only
    split <;> linarith

theorem rollingMean_nonneg {p : ℕ} {xs : List (Option ℚ)}
    (hxs : ∀ o ∈ xs, ∀ v : ℚ, o = some v → 0 ≤ v) {i : ℕ} {g : ℚ}
    (h : (rollingMean p xs).get? i = some (some g)) : 0 ≤ g := by
  have hi : i < xs.length := by
    by_contra hcon
    have hnone : (rollingMean p xs).get? i = none :=
      List.get?_eq_none.mpr (by rw [rollingMean, length_rolling]; omega)
    rw [hnone] at h
    exact Option.noConfusion h
  rw [rollingMean, get?_rolling _ _ hi] at h
  injection h with h
  by_cases hc : p ≤ i + 1
  · rw [if_pos hc] at h
    cases hw : seqOpt (trailWin p i xs) with
    | none =>
      rw [hw] at h
      exact Option.noConfusion h
    | some w =>
      rw [hw] at h
      injection h with h
      have hmem : ∀ v ∈ w, (0 : ℚ) ≤ v := by
        intro v hvw
        have hin : some v ∈ trailWin p i xs := by
          rw [seqOpt_eq_some hw]
          exact List.mem_map_of_mem some hvw
        exact hxs _ (mem_trailWin hin) v rfl
      have hsum := List.sum_nonneg hmem
      rw [← h]
      positivity
  · rw [if_neg hc] at h
    exact Option.noConfusion h

/-! ## Claims C4, C5, C6, C7 -/

/-- C4: EMA of a non-empty series is defined at every position (a total
list of the input's length), its seed is the first value, and every later
position satisfies `ema[i] = a*close[i] + (1-a)*ema[i-1]` with
`a = 2/(p+1)`. -/
theorem claim_C4 (data : List ℚ) (p : ℕ) :
    (ema data p).length = data.length ∧
    (∀ (x : ℚ) (xs : List ℚ), data = x :: xs → (ema data p).get? 0 = some x) ∧
    (∀ i : ℕ, (ema data p).get? (i + 1) =
      Option.map₂ (fun c prev => 2 / ((p : ℚ) + 1) * c + (1 - 2 / ((p : ℚ) + 1)) * prev)
        (data.get? (i + 1)) ((ema data p).get? i)) := by
  refine ⟨?_, ?_, ?_⟩
  · cases data with
    | nil => rfl
    | cons x xs => simp [ema, List.length_scanl]
  · rintro x xs rfl
    simp [ema]
  · intro i
    cases data with
    | nil => simp [ema, Option.map₂]
    | cons x xs =>
      simp only [ema, List.get?_cons_succ]
      rw [List.get?_succ_scanl]
      cases hxs : xs.get? i <;>
        cases hs : (List.scanl
            (fun prev c => 2 / ((p : ℚ) + 1) * c + (1 - 2 / ((p : ℚ) + 1)) * prev) x xs).get? i <;>
        simp [Option.map₂, hxs, hs]

/-- C4 witness on the series `[10, 11]` with period 3: the seed is 10, the
step satisfies the recursion, and the resulting series is `[10, 21/2]`. -/
theorem claim_C4_witness :
    (ema [10, 11] 3).get? 0 = some 10 ∧
    (ema [10, 11] 3).get? 1 =
      Option.map₂ (fun c prev => 2 / ((3 : ℚ) + 1) * c + (1 - 2 / ((3 : ℚ) + 1)) * prev)
        (([10, 11] : List ℚ).get? 1) ((ema [10, 11] 3).get? 0) ∧
    ema [10, 11] 3 = [10, 21 / 2] :=
  ⟨(claim_C4 [10, 11] 3).2.1 10 [11] rfl, (claim_C4 [10, 11] 3).2.2 0,
    by norm_num [ema, List.scanl]⟩

/-- C5: SMA at position `i` is the arithmetic mean of the trailing window of
`p` closes once `p` bars exist (`i ≥ p-1`) and no value before; on
`[10,12,14,16,18]` with `p = 3` the values are 12, 14, 16. -/
theorem claim_C5 :
    (∀ (data : List ℚ) (p i : ℕ), i < data.length →
        (sma data p).get? i =
          some (if p ≤ i + 1 then some (((data.take (i + 1)).drop (i + 1 - p)).sum / p)
            else none)) ∧
    sma [10, 12, 14, 16, 18] 3 = [none, none, some 12, some 14, some 16] := by
  constructor
  · intro data p i hi
    have hlen : i < (data.map some).length := by simpa using hi
    rw [sma, rollingMean, get?_rolling _ _ hlen]
    by_cases hc : p ≤ i + 1
    · rw [if_pos hc, if_pos hc]
      have hwin : trailWin p i (data.map some) =
          ((data.take (i + 1)).drop (i + 1 - p)).map some := by
        simp [trailWin, List.map_take, List.map_drop]
      rw [hwin, seqOpt_map_some]
      rfl
    · rw [if_neg hc, if_neg hc]
  · norm_num [sma, rollingMean, rolling, trailWin, seqOpt, List.range_succ]

/-- C5 witness: the general window formula applied at `i = 2` on the
concrete 5-bar series. -/
theorem claim_C5_witness :
    (sma [10, 12, 14, 16, 18] 3).get? 2 =
      some (if 3 ≤ 2 + 1 then
        some (((([10, 12, 14, 16, 18] : List ℚ).take (2 + 1)).drop (2 + 1 - 3)).sum / 3)
      else none) :=
  claim_C5.1 [10, 12, 14, 16, 18] 3 2 (by norm_num)

/-- C6 counterexample: on the flat series `[5,5,5]` with period 2, the
trailing average loss at position 1 is 0 but so is the average gain, so
`rs = 0/0` is NaN and RSI is no value, not 100. -/
theorem claim_C6_counterexample :
    (rsiAvgLoss [5, 5, 5] 2).get? 1 = some (some 0) ∧
      (rsi [5, 5, 5] 2).get? 1 = some none := by
  constructor <;>
    norm_num [rsi, rsiAvgGain, rsiAvgLoss, rsiGain, rsiLoss, diffQ, rollingMean, rolling,
      trailWin, seqOpt, omap2, rsiPoint, List.range_succ]

/-- C6 (amended): at a position where the trailing average loss is 0, RSI is
100 when the trailing average gain is non-zero, and no value (NaN from
`0/0`) when the average gain is also 0. -/
theorem claim_C6_amended (data : List ℚ) (p i : ℕ) (g : ℚ)
    (hg : (rsiAvgGain data p).get? i = some (some g))
    (hl : (rsiAvgLoss data p).get? i = some (some 0)) :
    (rsi data p).get? i = some (if g = 0 then none else some 100) := by
  rw [rsi, omap2, List.get?_zipWith', hg, hl]
  simp [rsiPoint]

/-- C6 witness: on `[1,2,3]` with period 2 the average loss at position 1 is
0, the average gain is 1/2, and RSI is 100. -/
theorem claim_C6_witness :
    (rsi [1, 2, 3] 2).get? 1 = some (if (1 / 2 : ℚ) = 0 then none else some 100) :=
  claim_C6_amended [1, 2, 3] 2 1 (1 / 2)
    (by norm_num [rsiAvgGain, rsiGain, diffQ, rollingMean, rolling, trailWin, seqOpt,
      List.range_succ])
    (by norm_num [rsiAvgLoss, rsiLoss, diffQ, rollingMean, rolling, trailWin, seqOpt,
      List.range_succ])

/-- C7: wherever RSI is defined its value lies in `[0, 100]`: the average
gain and loss are non-negative, so either the zero-loss branch yields
exactly 100 or `100 - 100/(1 + g/l)` with `g/l ≥ 0` lies in `[0, 100)`. -/
theorem claim_C7 (data : List ℚ) (p i : ℕ) (q : ℚ)
    (h : (rsi data p).get? i = some (some q)) : 0 ≤ q ∧ q ≤ 100 := by
  rw [rsi, omap2, List.get?_zipWith'] at h
  cases hg : (rsiAvgGain data p).get? i with
  | none => rw [hg] at h; simp at h
  | some a =>
    cases hl : (rsiAvgLoss data p).get? i with
    | none => rw [hg, hl] at h; simp at h
    | some b =>
      rw [hg, hl] at h
      simp only [Option.map_some', Option.some_bind, Option.map_some', Option.some_inj] at h
      cases a with
      | none => simp at h
      | some g =>
        cases b with
        | none => simp at h
        | some l =>
          simp only [Option.some_bind] at h
          have h0g : 0 ≤ g := by
            rw [rsiAvgGain] at hg
            exact rollingMean_nonneg (rsiGain_nonneg data) hg
          have h0l : 0 ≤ l := by
            rw [rsiAvgLoss] at hl
            exact rollingMean_nonneg (rsiLoss_nonneg data) hl
          rw [rsiPoint] at h
          by_cases hlz : l = 0
          · rw [if_pos hlz] at h
            by_cases hgz : g = 0
            · rw [if_pos hgz] at h
              exact Option.noConfusion h
            · rw [if_neg hgz] at h
              injection h with h
              subst h
              norm_num
          · rw [if_neg hlz] at h
            have hl0 : 0 < l := lt_of_le_of_ne h0l (Ne.symm hlz)
            have hr : 0 ≤ g / l := div_nonneg h0g hl0.le
            have h1 : (0 : ℚ) < 1 + g / l := by linarith
            rw [if_neg (ne_of_gt h1)] at h
            injection h with h
            subst h
            have hd1 : 100 / (1 + g / l) ≤ 100 := by
              rw [div_le_iff h1]
              nlinarith
            have hd0 : 0 < 100 / (1 + g / l) := by positivity
            constructor <;> linarith

/-- C7 witness: on `[1,2,3]` with period 2, RSI at position 1 is 100 and the
bound theorem applies to it. -/
theorem claim_C7_witness : (0 : ℚ) ≤ 100 ∧ (100 : ℚ) ≤ 100 :=
  claim_C7 [1, 2, 3] 2 1 100
    (by norm_num [rsi, rsiAvgGain, rsiAvgLoss, rsiGain, rsiLoss, diffQ, rollingMean, rolling,
      trailWin, seqOpt, omap2, rsiPoint, List.range_succ])

/-! ## Helper lemmas and claims for OBV (C8) -/

theorem mem_zipWith {α β γ : Type} (f : α → β → γ) :
    ∀ (as : List α) (bs : List β) (x : γ), x ∈ List.zipWith f as bs →
      ∃ a ∈ as, ∃ b ∈ bs, x = f a b
  | [], _, _, h => by simp at h
  | _ :: _, [], _, h => by simp at h
  | a :: as, b :: bs, x, h => by
    rcases List.mem_cons.mp h with rfl | h'
    · exact ⟨a, by simp, b, by simp, rfl⟩
    · obtain ⟨a', ha, b', hb, rfl⟩ := mem_zipWith f as bs x h'
      exact ⟨a', by simp [ha], b', by simp [hb], rfl⟩

theorem zip_diff_nonneg :
    ∀ (l : List ℚ) (a : ℚ), List.Chain' (· ≤ ·) (a :: l) →
      ∀ o ∈ List.zipWith (fun x y => (some (y - x) : Option ℚ)) (a :: l) l,
        ∀ δ : ℚ, o = some δ → 0 ≤ δ
  | [], _, _ => by simp
  | b :: t, a, h => by
    intro o ho δ hδ
    rcases List.mem_cons.mp ho with rfl | ho'
    · injection hδ with hδ
      subst hδ
      have hab := (List.chain'_cons.mp h).1
      linarith
    · exact zip_diff_nonneg t b (List.chain'_cons.mp h).2 o ho' δ hδ

theorem diffQ_nonneg (close : List ℚ) (hc : List.Chain' (· ≤ ·) close) :
    ∀ o ∈ diffQ close, ∀ δ : ℚ, o = some δ → 0 ≤ δ := by
  cases close with
  | nil => simp [diffQ]
  | cons c rest =>
    intro o ho δ hδ
    rw [diffQ] at ho
    rcases List.mem_cons.mp ho with rfl | ho'
    · exact Option.noConfusion hδ
    · exact zip_diff_nonneg rest c hc o ho' δ hδ

theorem obvSteps_nonneg (close volume : List ℚ) (hc : List.Chain' (· ≤ ·) close)
    (hv : ∀ v ∈ volume, 0 ≤ v) : ∀ s ∈ obvSteps close volume, 0 ≤ s := by
  intro s hs
  rw [obvSteps] at hs
  obtain ⟨d, hd, v, hvm, rfl⟩ := mem_zipWith _ _ _ _ hs
  cases d with
  | none => norm_num
  | some δ =>
    have hδ : 0 ≤ δ := diffQ_nonneg close hc _ hd δ rfl
    have hv' := hv v hvm
    dsimp only
    rw [pySign]
    by_cases h1 : 0 < δ
    · rw [if_pos h1]
      linarith
    · rw [if_neg h1, if_neg (by linarith)]
      linarith

theorem chain'_cumsum :
    ∀ (xs : List ℚ) (a : ℚ), (∀ s ∈ xs, 0 ≤ s) → List.Chain' (· ≤ ·) (cumsum a xs)
  | [], _, _ => List.chain'_nil
  | x :: rest, a, h => by
    rw [cumsum, List.chain'_cons']
    constructor
    · intro y hy
      cases rest with
      | nil => simp [cumsum] at hy
      | cons r t =>
        simp only [cumsum, List.head?_cons, Option.mem_def, Option.some_inj] at hy
        have hr := h r (by simp)
        linarith [hy.symm.le]
    · exact chain'_cumsum rest (a + x) fun s hs => h s (by simp [hs])

theorem get?_cumsum_succ :
    ∀ (xs : List ℚ) (a : ℚ) (i : ℕ),
      (cumsum a xs).get? (i + 1) =
        Option.map₂ (· + ·) ((cumsum a xs).get? i) (xs.get? (i + 1))
  | [], _, _ => by simp [cumsum, Option.map₂]
  | x :: rest, a, 0 => by
    cases rest with
    | nil => simp [cumsum, Option.map₂]
    | cons r t => simp [cumsum, Option.map₂]
  | x :: rest, a, i + 1 => by
    have ih := get?_cumsum_succ rest (a + x) i
    simp only [cumsum, List.get?_cons_succ]
    exact ih

theorem get?_obvSteps (close volume : List ℚ) (i : ℕ) :
    (obvSteps close volume).get? (i + 1) =
      Option.map₂ (fun d v => pySign d * v)
        (Option.map₂ (fun a b => b - a) (close.get? i) (close.get? (i + 1)))
        (volume.get? (i + 1)) := by
  cases close with
  | nil => simp [obvSteps, diffQ, Option.map₂]
  | cons c rest =>
    rw [obvSteps, List.get?_zipWith']
    simp only [diffQ, List.get?_cons_succ]
    rw [List.get?_zipWith']
    cases h1 : (c :: rest).get? i <;> cases h2 : rest.get? i <;>
      cases h3 : volume.get? (i + 1) <;> simp [Option.map₂]

/-- C8 counterexample: closes `[1, 2]` are non-decreasing, but with the
(physically meaningless yet type-correct) volume series `[0, -5]` OBV is
`[0, -5]`, which is decreasing — the claim fails without a non-negativity
assumption on volume. -/
theorem claim_C8_counterexample :
    List.Chain' (· ≤ ·) [(1 : ℚ), 2] ∧ obv [(1 : ℚ), 2] [0, -5] = [0, -5] ∧
      ¬ List.Chain' (· ≤ ·) (obv [(1 : ℚ), 2] [0, -5]) := by
  have hv : obv [(1 : ℚ), 2] [0, -5] = [0, -5] := by
    norm_num [obv, obvSteps, diffQ, cumsum, pySign]
  refine ⟨by norm_num [List.chain'_pair], hv, ?_⟩
  rw [hv]
  norm_num [List.chain'_pair]

/-- C8 (amended): OBV is 0 at the first bar; each step adds
`sign(close[i]-close[i-1]) * volume[i]`; and when the closes are
non-decreasing **and every volume is non-negative** the OBV series is
non-decreasing.  (The claim as stated omits the volume hypothesis, without
which monotonicity fails.) -/
theorem claim_C8_amended (close volume : List ℚ) :
    (close ≠ [] → volume ≠ [] → (obv close volume).get? 0 = some 0) ∧
    (List.Chain' (· ≤ ·) close → (∀ v ∈ volume, 0 ≤ v) →
      List.Chain' (· ≤ ·) (obv close volume)) ∧
    (∀ i : ℕ, (obvSteps close volume).get? (i + 1) =
      Option.map₂ (fun d v => pySign d * v)
        (Option.map₂ (fun a b => b - a) (close.get? i) (close.get? (i + 1)))
        (volume.get? (i + 1))) ∧
    (∀ i : ℕ, (obv close volume).get? (i + 1) =
      Option.map₂ (· + ·) ((obv close volume).get? i)
        ((obvSteps close volume).get? (i + 1))) := by
  refine ⟨?_, ?_, get?_obvSteps close volume, ?_⟩
  · intro hc hv
    cases close with
    | nil => exact absurd rfl hc
    | cons c cs =>
      cases volume with
      | nil => exact absurd rfl hv
      | cons v vs => simp [obv, obvSteps, diffQ, cumsum]
  · intro hc hv
    exact chain'_cumsum _ 0 (obvSteps_nonneg close volume hc hv)
  · intro i
    rw [obv]
    exact get?_cumsum_succ _ 0 i

/-- C8 witness: non-decreasing closes `[1, 2]` and non-negative volumes
`[3, 4]` give a non-decreasing OBV series. -/
theorem claim_C8_witness : List.Chain' (· ≤ ·) (obv [(1 : ℚ), 2] [3, 4]) :=
  (claim_C8_amended [1, 2] [3, 4]).2.1 (by norm_num [List.chain'_pair])
    (by intro v hv; rcases List.mem_cons.mp hv with rfl | hv' <;> simp_all)

/-! ## Per-indicator length and short-series lemmas (C3) -/

theorem sma_len (data : List ℚ) (p : ℕ) : (sma data p).length = data.length := by
  simp [sma, rollingMean, length_rolling]

theorem sma_short {data : List ℚ} {p : ℕ} (h : data.length < p) :
    sma data p = List.replicate data.length none := by
  refine eq_replicate_none (sma_len data p) ?_
  intro x hx
  simp only [sma, rollingMean] at hx
  exact rolling_none_of_lt (by simpa using h) x hx

theorem wma_len (data : List ℚ) (p : ℕ) : (wma data p).length = data.length := by
  simp [wma, length_rolling]

theorem wma_short {data : List ℚ} {p : ℕ} (h : data.length < p) :
    wma data p = List.replicate data.length none := by
  refine eq_replicate_none (wma_len data p) ?_
  intro x hx
  simp only [wma] at hx
  exact rolling_none_of_lt (by simpa using h) x hx

theorem rsiAvgGain_len (data : List ℚ) (p : ℕ) :
    (rsiAvgGain data p).length = data.length := by
  simp [rsiAvgGain, rollingMean, length_rolling, rsiGain, length_diffQ]

theorem rsiAvgLoss_len (data : List ℚ) (p : ℕ) :
    (rsiAvgLoss data p).length = data.length := by
  simp [rsiAvgLoss, rollingMean, length_rolling, rsiLoss, length_diffQ]

theorem rsi_len (data : List ℚ) (p : ℕ) : (rsi data p).length = data.length := by
  simp [rsi, length_omap2, rsiAvgGain_len, rsiAvgLoss_len]

theorem rsi_short {data : List ℚ} {p : ℕ} (h : data.length < p) :
    rsi data p = List.replicate data.length none := by
  refine eq_replicate_none (rsi_len data p) ?_
  intro x hx
  simp only [rsi] at hx
  refine omap2_none_left _ _ _ ?_ x hx
  intro y hy
  simp only [rsiAvgGain, rollingMean] at hy
  refine rolling_none_of_lt ?_ y hy
  simpa [rsiGain, length_diffQ] using h

theorem bollinger_mid_len (sq : ℚ → ℚ) (data : List ℚ) (p : ℕ) (k : ℚ) :
    (bollinger_bands sq data p k).2.1.length = data.length := by
  simp [bollinger_bands, sma_len]

theorem bollinger_upper_len (sq : ℚ → ℚ) (data : List ℚ) (p : ℕ) (k : ℚ) :
    (bollinger_bands sq data p k).1.length = data.length := by
  simp [bollinger_bands, length_omap2, sma_len, rollingStd, length_rolling]

theorem bollinger_lower_len (sq : ℚ → ℚ) (data : List ℚ) (p : ℕ) (k : ℚ) :
    (bollinger_bands sq data p k).2.2.length = data.length := by
  simp [bollinger_bands, length_omap2, sma_len, rollingStd, length_rolling]

theorem bollinger_upper_short {sq : ℚ → ℚ} {data : List ℚ} {p : ℕ} {k : ℚ}
    (h : data.length < p) :
    (bollinger_bands sq data p k).1 = List.replicate data.length none := by
  refine eq_replicate_none (bollinger_upper_len sq data p k) ?_
  intro x hx
  simp only [bollinger_bands] at hx
  refine omap2_none_left _ _ _ ?_ x hx
  intro y hy
  simp only [sma, rollingMean] at hy
  exact rolling_none_of_lt (by simpa using h) y hy

theorem bollinger_lower_short {sq : ℚ → ℚ} {data : List ℚ} {p : ℕ} {k : ℚ}
    (h : data.length < p) :
    (bollinger_bands sq data p k).2.2 = List.replicate data.length none := by
  refine eq_replicate_none (bollinger_lower_len sq data p k) ?_
  intro x hx
  simp only [bollinger_bands] at hx
  refine omap2_none_left _ _ _ ?_ x hx
  intro y hy
  simp only [sma, rollingMean] at hy
  exact rolling_none_of_lt (by simpa using h) y hy

theorem stochastic_k_len (high low close : List ℚ) (p dp : ℕ)
    (hh : high.length = close.length) (hl : low.length = close.length) :
    (stochastic high low close p dp).1.length = close.length := by
  simp [stochastic, length_omap3, rollingMin, rollingMax, length_rolling, hh, hl]

theorem stochastic_d_len (high low close : List ℚ) (p dp : ℕ)
    (hh : high.length = close.length) (hl : low.length = close.length) :
    (stochastic high low close p dp).2.length = close.length := by
  simp [stochastic, rollingMean, length_rolling, length_omap3, rollingMin, rollingMax, hh, hl]

theorem stochastic_k_short {high low close : List ℚ} {p dp : ℕ}
    (hh : high.length = close.length) (hl : low.length = close.length)
    (h : close.length < p) :
    (stochastic high low close p dp).1 = List.replicate close.length none := by
  refine eq_replicate_none (stochastic_k_len high low close p dp hh hl) ?_
  intro x hx
  simp only [stochastic] at hx
  refine omap3_none_second _ _ _ _ ?_ x hx
  intro y hy
  simp only [rollingMax] at hy
  refine rolling_none_of_lt ?_ y hy
  simpa [hh] using h

theorem stochastic_d_short {high low close : List ℚ} {p dp : ℕ}
    (hh : high.length = close.length) (hl : low.length = close.length)
    (hdp : 1 ≤ dp) (h : close.length < p) :
    (stochastic high low close p dp).2 = List.replicate close.length none := by
  refine eq_replicate_none (stochastic_d_len high low close p dp hh hl) ?_
  intro x hx
  simp only [stochastic, rollingMean] at hx
  refine rolling_none_of_none hdp ?_ x hx
  intro y hy
  refine omap3_none_second _ _ _ _ ?_ y hy
  intro z hz
  simp only [rollingMax] at hz
  exact rolling_none_of_lt (by simpa [hh] using h) z hz

theorem atr_len (high low close : List ℚ) (p : ℕ)
    (hh : high.length = close.length) (hl : low.length = close.length) :
    (atr high low close p).length = close.length := by
  simp [atr, rollingMean, length_rolling, length_trueRange, length_shift1, hh, hl]

theorem atr_short {high low close : List ℚ} {p : ℕ}
    (hh : high.length = close.length) (hl : low.length = close.length)
    (h : close.length < p) :
    atr high low close p = List.replicate close.length none := by
  refine eq_replicate_none (atr_len high low close p hh hl) ?_
  intro x hx
  simp only [atr, rollingMean] at hx
  refine rolling_none_of_lt ?_ x hx
  simpa [length_trueRange, length_shift1, hh, hl] using h

theorem dmPlus_len (high low : List ℚ) :
    (dmPlus high low).length = min high.length low.length := by
  simp [dmPlus, List.length_zipWith, length_diffQ]

theorem dmMinus_len (high low : List ℚ) :
    (dmMinus high low).length = min high.length low.length := by
  simp [dmMinus, List.length_zipWith, length_diffQ]

theorem adx_len (high low close : List ℚ) (p : ℕ)
    (hh : high.length = close.length) (hl : low.length = close.length) :
    (adx high low close p).length = close.length := by
  simp [adx, atr, rollingMean, length_rolling, length_omap3, dmPlus_len, dmMinus_len,
    length_trueRange, length_shift1, hh, hl]

theorem adx_short {high low close : List ℚ} {p : ℕ}
    (hh : high.length = close.length) (hl : low.length = close.length)
    (h : close.length < p) :
    adx high low close p = List.replicate close.length none := by
  refine eq_replicate_none (adx_len high low close p hh hl) ?_
  intro x hx
  simp only [adx, rollingMean] at hx
  refine rolling_none_of_lt ?_ x hx
  simpa [length_omap3, length_rolling, dmPlus_len, dmMinus_len, atr, rollingMean,
    length_trueRange, length_shift1, hh, hl] using h

theorem mfi_len (high low close volume : List ℚ) (p : ℕ)
    (hh : high.length = close.length) (hl : low.length = close.length)
    (hv : volume.length = close.length) :
    (mfi high low close volume p).length = close.length := by
  simp [mfi, rollingSum, length_rolling, length_omap2, length_flowPos, length_flowNeg,
    length_zipWith3Q, List.length_zipWith, length_shift1, hh, hl, hv]

theorem mfi_short {high low close volume : List ℚ} {p : ℕ}
    (hh : high.length = close.length) (hl : low.length = close.length)
    (hv : volume.length = close.length) (h : close.length < p) :
    mfi high low close volume p = List.replicate close.length none := by
  refine eq_replicate_none (mfi_len high low close volume p hh hl hv) ?_
  intro x hx
  simp only [mfi, rollingSum] at hx
  refine omap2_none_left _ _ _ ?_ x hx
  intro y hy
  refine rolling_none_of_lt ?_ y hy
  simpa [length_flowPos, length_zipWith3Q, List.length_zipWith, length_shift1,
    hh, hl, hv] using h

/-- C3: for every period `p ≥ 1` and series shorter than `p`, SMA, WMA,
Bollinger bands, Stochastic, ATR, ADX, MFI and RSI are no value at every
position (the output is a list of `none`s); and every indicator's output has
exactly the length of its input series (multi-column indicators taken on
equal-length OHLCV columns).  For the stochastic `%D` smoothing any period
`dp ≥ 1` is allowed; the Bollinger multiplier `k` and modelled square root
`sq` are arbitrary. -/
theorem claim_C3 (p dp : ℕ) (sq : ℚ → ℚ) (k : ℚ)
    (data high low close volume : List ℚ) (hp : 1 ≤ p) (hdp : 1 ≤ dp)
    (hh : high.length = close.length) (hl : low.length = close.length)
    (hv : volume.length = close.length) :
    ((sma data p).length = data.length ∧
      (wma data p).length = data.length ∧
      (rsi data p).length = data.length ∧
      (bollinger_bands sq data p k).1.length = data.length ∧
      (bollinger_bands sq data p k).2.1.length = data.length ∧
      (bollinger_bands sq data p k).2.2.length = data.length ∧
      (stochastic high low close p dp).1.length = close.length ∧
      (stochastic high low close p dp).2.length = close.length ∧
      (atr high low close p).length = close.length ∧
      (adx high low close p).length = close.length ∧
      (mfi high low close volume p).length = close.length) ∧
    (data.length < p →
      sma data p = List.replicate data.length none ∧
      wma data p = List.replicate data.length none ∧
      rsi data p = List.replicate data.length none ∧
      (bollinger_bands sq data p k).1 = List.replicate data.length none ∧
      (bollinger_bands sq data p k).2.1 = List.replicate data.length none ∧
      (bollinger_bands sq data p k).2.2 = List.replicate data.length none) ∧
    (close.length < p →
      (stochastic high low close p dp).1 = List.replicate close.length none ∧
      (stochastic high low close p dp).2 = List.replicate close.length none ∧
      atr high low close p = List.replicate close.length none ∧
      adx high low close p = List.replicate close.length none ∧
      mfi high low close volume p = List.replicate close.length none) := by
  refine ⟨⟨sma_len data p, wma_len data p, rsi_len data p, bollinger_upper_len sq data p k,
    bollinger_mid_len sq data p k, bollinger_lower_len sq data p k,
    stochastic_k_len high low close p dp hh hl, stochastic_d_len high low close p dp hh hl,
    atr_len high low close p hh hl, adx_len high low close p hh hl,
    mfi_len high low close volume p hh hl hv⟩, ?_, ?_⟩
  · intro h
    exact ⟨sma_short h, wma_short h, rsi_short h, bollinger_upper_short h,
      by rw [show (bollinger_bands sq data p k).2.1 = sma data p from rfl]; exact sma_short h,
      bollinger_lower_short h⟩
  · intro h
    exact ⟨stochastic_k_short hh hl h, stochastic_d_short hh hl hdp h, atr_short hh hl h,
      adx_short hh hl h, mfi_short hh hl hv h⟩

/-- C3 witness: with period 3 over 2-bar series every indicator output is
`[none, none]`. -/
theorem claim_C3_witness :
    sma [1, 2] 3 = List.replicate 2 none ∧
    (stochastic [1, 2] [0, 1] [1, 2] 3 2).2 = List.replicate 2 none ∧
    mfi [1, 2] [0, 1] [1, 2] [5, 6] 3 = List.replicate 2 none := by
  have h := claim_C3 3 2 id 2 [1, 2] [1, 2] [0, 1] [1, 2] [5, 6] (by decide) (by decide)
    rfl rfl rfl
  exact ⟨(h.2.1 (by decide)).1, (h.2.2 (by decide)).2.1, (h.2.2 (by decide)).2.2.2.2⟩

end StockApp
